import Mathlib

set_option maxRecDepth 4000
set_option exponentiation.threshold 20000

/-!
Shallow embedding of the TON price bot (src/main.py) together with proofs
about its cache, fetch, parsing and calculation components.

Floats: the program computes with CPython floats, i.e. IEEE-754 binary64.
We model a double as an inductive type: NaN, a signed infinity, or a
finite value m * 2^e carried as a canonical dyadic pair (m odd, or
m = 0 and e = 0), so that structural equality of representations is
exactly equality of the denoted values.  Every arithmetic operation
performs the IEEE rounding explicitly (round to nearest, ties to even,
overflow to infinity, gradual underflow at the minimum exponent -1074),
implemented with integer arithmetic only.  Signed zero is not
distinguished; no property below depends on the sign of a zero.  CPython
raises ZeroDivisionError on float division by a zero divisor (it does not
produce an IEEE infinity), so division is modelled in the Except monad.
-/

/-- Exceptions that the relevant Python code can raise. -/
inductive PyErr where
  | zeroDivisionError : PyErr
  | keyError : PyErr
  | typeError : PyErr
  | valueError : PyErr
  | ioError : PyErr
  | netError : PyErr
  | httpError (status : Nat) : PyErr
  | runtimeError : PyErr
deriving DecidableEq, Repr

instance {ε α : Type} [DecidableEq ε] [DecidableEq α] : DecidableEq (Except ε α) := fun a b =>
  match a, b with
  | .ok x, .ok y =>
    if h : x = y then isTrue (by rw [h]) else isFalse (fun he => h (Except.ok.inj he))
  | .error x, .error y =>
    if h : x = y then isTrue (by rw [h]) else isFalse (fun he => h (Except.error.inj he))
  | .ok _, .error _ => isFalse (fun he => Except.noConfusion he)
  | .error _, .ok _ => isFalse (fun he => Except.noConfusion he)

/-- Whether an Except computation succeeded. -/
def exceptIsOk {ε α : Type} : Except ε α → Bool
  | .ok _ => true
  | .error _ => false

/-- Number of binary digits of n, by single halving steps; exact whenever
the fuel is at least the number of binary digits. -/
def bitlenSmall : Nat → Nat → Nat
  | 0, _ => 0
  | fuel + 1, n => if n = 0 then 0 else bitlenSmall fuel (n / 2) + 1

/-- Number of binary digits of n, peeling 256 binary digits per fuel
step and finishing with single halving steps. -/
def bitlenChunks : Nat → Nat → Nat
  | 0, _ => 0
  | fuel + 1, n =>
    if n < 2 ^ 256 then bitlenSmall 256 n else bitlenChunks fuel (n / 2 ^ 256) + 256

/-- Number of binary digits of a natural number (0 for 0).  The fuel n is
always sufficient, since a positive number n has at most n binary digits,
so this is exact for every n - there is no size cap. -/
def bitlen (n : Nat) : Nat := bitlenChunks n n

/-- Whether a * 2 ^ s < b, for naturals a, b and an integer shift s. -/
def ltShift (a b : Nat) (s : Int) : Bool :=
  if 0 ≤ s then a * 2 ^ s.toNat < b else a < b * 2 ^ (-s).toNat

/-- Divide out factors of two, returning the odd part and the adjusted
exponent; fuel bounds the recursion (54 is enough for every rounded
53-bit significand). -/
def stripTwos : Nat → Nat → Int → Nat × Int
  | 0, n, e => (n, e)
  | fuel + 1, n, e => if n % 2 = 0 ∧ n ≠ 0 then stripTwos fuel (n / 2) (e + 1) else (n, e)

/-- An IEEE-754 binary64 value as seen from Python: NaN, a signed
infinity, or the finite value m * 2^e in canonical form (m odd, or m = 0
and e = 0), identified with the exact value it denotes.  Signed zero is
not distinguished. -/
inductive F64 where
  | nan : F64
  | inf (neg : Bool) : F64
  | fin (m : Int) (e : Int) : F64
deriving DecidableEq, Repr

/-- Package a rounded significand n0 * 2 ^ p with a sign into a double:
zero, a canonical finite dyadic, or an infinity on overflow. -/
def roundPack (neg : Bool) (n0 : Nat) (p : Int) : F64 :=
  if n0 = 0 then .fin 0 0
  else if ltShift n0 1 (p - 1024) then
    .fin (if neg then -((stripTwos 54 n0 p).1 : Int) else ((stripTwos 54 n0 p).1 : Int))
      (stripTwos 54 n0 p).2
  else .inf neg

/-- Round the exact rational (num / den) * 2 ^ e (den > 0) to the nearest
binary64 value: round to nearest, ties to even; overflow to infinity;
gradual underflow via the minimum exponent -1074.  Integer arithmetic
throughout. -/
def roundFrac (num : Int) (den : Nat) (e : Int) : F64 :=
  if num = 0 then .fin 0 0
  else
    let a := num.natAbs
    let e0 := (bitlen a : Int) - (bitlen den : Int) + e
    let fl := if ltShift a den (e - e0) then e0 - 1 else e0
    let p := max (fl - 52) (-1074)
    let s := e - p
    let num2 := if 0 ≤ s then a * 2 ^ s.toNat else a
    let den2 := if 0 ≤ s then den else den * 2 ^ (-s).toNat
    let q := num2 / den2
    let r := num2 % den2
    let n0 := if 2 * r < den2 then q else if den2 < 2 * r then q + 1
              else if q % 2 = 0 then q else q + 1
    roundPack (decide (num < 0)) n0 p

/-- Whether a double is finite (neither NaN nor an infinity). -/
def F64.isFinite : F64 → Bool
  | .fin _ _ => true
  | _ => false

/-- Whether a double is strictly positive (inf is; NaN is not). -/
def F64.isPos : F64 → Bool
  | .fin m _ => decide (0 < m)
  | .inf neg => !neg
  | .nan => false

/-- Whether a double is a (possibly signed) zero. -/
def F64.isZeroF : F64 → Bool
  | .fin m _ => decide (m = 0)
  | _ => false

/-- Python float multiplication (never raises). -/
def fmul : F64 → F64 → F64
  | .nan, _ => .nan
  | _, .nan => .nan
  | .inf s, .inf t => .inf (xor s t)
  | .inf s, .fin m _ => if m = 0 then .nan else .inf (xor s (decide (m < 0)))
  | .fin m _, .inf s => if m = 0 then .nan else .inf (xor s (decide (m < 0)))
  | .fin m1 e1, .fin m2 e2 => roundFrac (m1 * m2) 1 (e1 + e2)

/-- Python float subtraction (never raises). -/
def fsub : F64 → F64 → F64
  | .nan, _ => .nan
  | _, .nan => .nan
  | .inf s, .inf t => if s = t then .nan else .inf s
  | .inf s, .fin _ _ => .inf s
  | .fin _ _, .inf t => .inf (!t)
  | .fin m1 e1, .fin m2 e2 =>
    let e := min e1 e2
    roundFrac (m1 * ((2 ^ (e1 - e).toNat : Nat) : Int) - m2 * ((2 ^ (e2 - e).toNat : Nat) : Int)) 1 e

/-- Python float division: raises ZeroDivisionError whenever the divisor
is a (signed) zero, even for NaN or infinite dividends. -/
def fdiv (a b : F64) : Except PyErr F64 :=
  match a, b with
  | _, .fin m2 e2 =>
    if m2 = 0 then .error .zeroDivisionError
    else
      match a with
      | .nan => .ok .nan
      | .inf s => .ok (.inf (xor s (decide (m2 < 0))))
      | .fin m1 e1 =>
        .ok (roundFrac (if m2 < 0 then -m1 else m1) m2.natAbs (e1 - e2))
  | _, .nan => .ok .nan
  | .nan, _ => .ok .nan
  | .inf _, .inf _ => .ok .nan
  | .fin _ _, .inf _ => .ok (.fin 0 0)

/-- STARS_50_USD = 0.78 from src/main.py, as the binary64 value the
literal denotes. -/
def STARS_50_USD : F64 := roundFrac 78 100 0

/-- The binary64 value of the literal 0.95 used in calc. -/
def FLOAT_0_95 : F64 := roundFrac 95 100 0

/-- The binary64 value 2.0 used in calc. -/
def FLOAT_2 : F64 := .fin 1 1

/-- The dict returned by calc in src/main.py, with its six keys. -/
structure CalcDict where
  price_ton : F64
  minus5_ton : F64
  ton_usd : F64
  stars50_ton : F64
  transfer25_ton : F64
  result_ton : F64
deriving DecidableEq, Repr

/-- calc from src/main.py:
price_minus_5 = price_ton * 0.95; stars50_ton = STARS_50_USD / ton_usd;
transfer25_ton = stars50_ton / 2.0; result = price_minus_5 - transfer25_ton.
The only statements that can raise are the two divisions, hence the Except
result. -/
def «calc» (price_ton ton_usd : F64) : Except PyErr CalcDict :=
  let price_minus_5 := fmul price_ton FLOAT_0_95
  match fdiv STARS_50_USD ton_usd with
  | .error e => .error e
  | .ok stars50_ton =>
    match fdiv stars50_ton FLOAT_2 with
    | .error e => .error e
    | .ok transfer25_ton =>
      let result := fsub price_minus_5 transfer25_ton
      .ok ⟨price_ton, price_minus_5, ton_usd, stars50_ton, transfer25_ton, result⟩

/-- The code points matched by the class \s of a CPython str-pattern
regex, exhaustively (generated from CPython 3): the ASCII whitespace
characters including \f and \v, the information separators 1C-1F, NEL,
NBSP, Ogham space mark, the Unicode space separators 2000-200A, the line
and paragraph separators, narrow no-break space, medium mathematical
space, and ideographic space. -/
def pySpaceCodes : List Nat :=
  [9, 10, 11, 12, 13, 28, 29, 30, 31, 32, 133, 160, 5760, 8192, 8193, 8194, 8195, 8196,
   8197, 8198, 8199, 8200, 8201, 8202, 8232, 8233, 8239, 8287, 12288]

/-- Whether the code point n is in the class \s of the regexes in
src/main.py. -/
def pySpaceN (n : Nat) : Bool := pySpaceCodes.any (fun z => n == z)

/-- Models the character class \s of the regexes in src/main.py.  The same
predicate is used on the code side and in the property statements. -/
def pySpace (c : Char) : Bool := pySpaceN c.toNat

/-- The first code points (decimal value 0) of the 66 runs of Unicode
decimal digits (general category Nd), exhaustively (generated from
CPython 3).  The class \d of a str-pattern regex matches exactly the 660
characters z + k for z in this list and k in 0..9, each such character
having decimal value k; Python float() accepts exactly the same digit
characters with the same values. -/
def pyDigitZeros : List Nat :=
  [48, 1632, 1776, 1984, 2406, 2534, 2662, 2790, 2918, 3046, 3174, 3302, 3430, 3558,
   3664, 3792, 3872, 4160, 4240, 6112, 6160, 6470, 6608, 6784, 6800, 6992, 7088, 7232,
   7248, 42528, 43216, 43264, 43472, 43504, 43600, 44016, 65296, 66720, 68912, 69734,
   69872, 69942, 70096, 70384, 70736, 70864, 71248, 71360, 71472, 71904, 72016, 72784,
   73040, 73120, 92768, 92864, 93008, 120782, 120792, 120802, 120812, 120822, 123200,
   123632, 125264, 130032]

/-- Whether the code point n is in the class \d of the regexes in
src/main.py (a Unicode decimal digit). -/
def pyDigitN (n : Nat) : Bool :=
  pyDigitZeros.any (fun z => decide (z ≤ n) && decide (n ≤ z + 9))

/-- Models the character class \d of the regexes in src/main.py.  The same
predicate is used on the code side and in the property statements. -/
def pyDigit (c : Char) : Bool := pyDigitN c.toNat

/-- Decimal value of a digit character: its offset in its Nd run (0 for
non-digits, which never reach this function on the accepting paths). -/
def digitVal (c : Char) : Nat :=
  match pyDigitZeros.find? (fun z => decide (z ≤ c.toNat) && decide (c.toNat ≤ z + 9)) with
  | some z => c.toNat - z
  | none => 0

/-- Value of a list of decimal digits, most significant first. -/
def digitsVal (ds : List Char) : Nat := ds.foldl (fun a c => 10 * a + digitVal c) 0

/-- Strip a leading sign the way Python float() does (+ or -). -/
def pySplitSign : List Char → Bool × List Char
  | c :: t => if c = '-' then (true, t) else if c = '+' then (false, t) else (false, c :: t)
  | [] => (false, [])

/-- Python float() on a plain decimal string literal: optional surrounding
whitespace, optional sign, digits with an optional dot.  Exponent and
inf/nan literals are outside the modelled scope (nothing below depends on
them); the exact decimal value is returned as a rational.  Used only by
the cache model, where no property depends on binary64 rounding. -/
def pyFloatLit (cs : List Char) : Option ℚ :=
  let r1 := cs.dropWhile pySpace
  let sr := pySplitSign r1
  let d1 := sr.2.takeWhile pyDigit
  let r2 := sr.2.dropWhile pyDigit
  match r2 with
  | '.' :: t =>
    let d2 := t.takeWhile pyDigit
    let r3 := t.dropWhile pyDigit
    if d1.isEmpty && d2.isEmpty then none
    else if r3.all pySpace then
      some ((if sr.1 then -1 else 1) * ((digitsVal d1 : ℚ) + (digitsVal d2 : ℚ) / 10 ^ d2.length))
    else none
  | _ =>
    if d1.isEmpty then none
    else if r2.all pySpace then some ((if sr.1 then -1 else 1) * (digitsVal d1 : ℚ))
    else none

/-- JSON values as produced by json.load.  Numbers are carried as exact
rationals: no property about the cache depends on binary64 rounding. -/
inductive Json where
  | null : Json
  | bool (b : Bool) : Json
  | num (q : ℚ) : Json
  | str (s : String) : Json
  | arr (elems : List Json) : Json
  | obj (fields : List (String × Json)) : Json

/-- Python subscription d[k]: KeyError when the key is missing, TypeError
when the value is not a dict. -/
def jsonGet (j : Json) (k : String) : Except PyErr Json :=
  match j with
  | .obj fields =>
    match fields.lookup k with
    | some v => .ok v
    | none => .error .keyError
  | _ => .error .typeError

/-- Python float(x) on a JSON value: numbers and booleans convert, numeric
strings parse, everything else raises. -/
def pyFloat : Json → Except PyErr ℚ
  | .num q => .ok q
  | .bool b => .ok (if b then 1 else 0)
  | .str s =>
    match pyFloatLit s.data with
    | some q => .ok q
    | none => .error .valueError
  | .null => .error .typeError
  | .arr _ => .error .typeError
  | .obj _ => .error .typeError

/-- State of the cache file ton_usd_cache.json: missing, unreadable (an
I/O error or content that is not valid JSON), or readable JSON content. -/
inductive FileState where
  | absent : FileState
  | unreadable : FileState
  | content (j : Json) : FileState

/-- The TonUsdPrice dataclass of src/main.py. -/
structure TonUsdPrice where
  ton_usd : ℚ
  ts : ℚ
deriving DecidableEq, Repr

/-- CACHE_TTL_SEC = 60 from src/main.py. -/
def CACHE_TTL_SEC : ℚ := 60

/-- The body of load_cache before its try/except: open the file, parse the
JSON, and build TonUsdPrice(float(d["ton_usd"]), float(d["ts"])); any of
these steps can raise. -/
def loadCacheBody : FileState → Except PyErr TonUsdPrice
  | .absent => .error .ioError
  | .unreadable => .error .valueError
  | .content j =>
    match jsonGet j "ton_usd" with
    | .error e => .error e
    | .ok rv =>
      match pyFloat rv with
      | .error e => .error e
      | .ok r =>
        match jsonGet j "ts" with
        | .error e => .error e
        | .ok tv =>
          match pyFloat tv with
          | .error e => .error e
          | .ok t => .ok ⟨r, t⟩

/-- load_cache from src/main.py: the whole body is wrapped in
try/except Exception, returning None on any failure. -/
def load_cache (s : FileState) : Option TonUsdPrice :=
  match loadCacheBody s with
  | .ok p => some p
  | .error _ => none

/-- save_cache from src/main.py: overwrite the cache file with
{"ton_usd": p.ton_usd, "ts": p.ts}. -/
def save_cache (p : TonUsdPrice) : FileState :=
  .content (.obj [("ton_usd", .num p.ton_usd), ("ts", .num p.ts)])

/-- One network interaction as seen by fetch_ton_usd: either the request
raises (connection error / timeout), or a response arrives with a status
code and a body (none models a body that resp.json() cannot decode). -/
inductive NetResult where
  | netError : NetResult
  | response (status : Nat) (body : Option Json) : NetResult

/-- The network branch of fetch_ton_usd from src/main.py:
resp.raise_for_status() (aiohttp raises for status >= 400), then
float(data["the-open-network"]["usd"]), the positivity check, and
save_cache on success.  The second component is the cache file after the
call. -/
def fetchFresh (s : FileState) (now : ℚ) (net : NetResult) : Except PyErr ℚ × FileState :=
  match net with
  | .netError => (.error .netError, s)
  | .response status body =>
    if 400 ≤ status then (.error (.httpError status), s)
    else
      match body with
      | none => (.error .valueError, s)
      | some data =>
        match jsonGet data "the-open-network" with
        | .error e => (.error e, s)
        | .ok inner =>
          match jsonGet inner "usd" with
          | .error e => (.error e, s)
          | .ok u =>
            match pyFloat u with
            | .error e => (.error e, s)
            | .ok ton_usd =>
              if ton_usd ≤ 0 then (.error .runtimeError, s)
              else (.ok ton_usd, save_cache ⟨ton_usd, now⟩)

/-- fetch_ton_usd from src/main.py: consult load_cache, serve a fresh
record directly, otherwise go to the network.  Times are exact rationals;
no claim about the cache depends on binary64 rounding of timestamps. -/
def fetch_ton_usd (s : FileState) (now : ℚ) (net : NetResult) : Except PyErr ℚ × FileState :=
  match load_cache s with
  | some cached =>
    if now - cached.ts < CACHE_TTL_SEC then (.ok cached.ton_usd, s)
    else fetchFresh s now net
  | none => fetchFresh s now net

/-- The parts captured by re.fullmatch(r"\s*(-?\d+(?:[.,]\d+)?)\s*", text):
sign, integer digits, and the digits after the optional [.,] separator. -/
structure NumParts where
  neg : Bool
  intDigits : List Char
  fracDigits : List Char
deriving DecidableEq, Repr

/-- Strip the optional leading - of the regex of parse_ton_price. -/
def splitSign : List Char → Bool × List Char
  | c :: t => if c = '-' then (true, t) else (false, c :: t)
  | [] => (false, [])

/-- Match the optional (?:[.,]\d+)? group followed by the trailing \s* and
end of input. -/
def matchFrac (neg : Bool) (d1 : List Char) (cs : List Char) : Option NumParts :=
  match cs with
  | c :: t =>
    if c = '.' ∨ c = ',' then
      let d2 := t.takeWhile pyDigit
      let r3 := t.dropWhile pyDigit
      if d2.isEmpty then none
      else if r3.all pySpace then some ⟨neg, d1, d2⟩ else none
    else if (c :: t).all pySpace then some ⟨neg, d1, []⟩ else none
  | [] => some ⟨neg, d1, []⟩

/-- Match \d+ then the rest of the pattern. -/
def matchBody (neg : Bool) (cs : List Char) : Option NumParts :=
  let d1 := cs.takeWhile pyDigit
  if d1.isEmpty then none
  else matchFrac neg d1 (cs.dropWhile pyDigit)

/-- re.fullmatch(r"\s*(-?\d+(?:[.,]\d+)?)\s*", ...) on a list of
characters, returning the captured numeric parts. -/
def matchNum (cs : List Char) : Option NumParts :=
  let r1 := cs.dropWhile pySpace
  let sr := splitSign r1
  matchBody sr.1 sr.2

/-- Numerator of the decimal value denoted by the captured parts; the
comma separator denotes the same value as the dot because of
.replace(",", ".") in parse_ton_price. -/
def partsNum (p : NumParts) : Int :=
  let mag := digitsVal p.intDigits * 10 ^ p.fracDigits.length + digitsVal p.fracDigits
  if p.neg then -(mag : Int) else (mag : Int)

/-- Denominator of the decimal value denoted by the captured parts. -/
def partsDen (p : NumParts) : Nat := 10 ^ p.fracDigits.length

/-- parse_ton_price from src/main.py.  The argument is Optional because the
call site passes m.text, which can be None; the body evaluates
(text or "") first.  float() of the matched group is binary64 rounding of
the denoted decimal value. -/
def parse_ton_price (text : Option String) : Option F64 :=
  match matchNum ((text.getD "").data) with
  | none => none
  | some parts => some (roundFrac (partsNum parts) (partsDen parts) 0)

/-- Division by a finite nonzero divisor always succeeds, whatever the
dividend. -/
lemma fdiv_fin_ok (a : F64) (m e : Int) (hm : ¬m = 0) : ∃ v, fdiv a (.fin m e) = .ok v := by
  cases a <;> simp [fdiv, hm]

/-- For every rate other than a zero float, calc succeeds and returns the
dict built from price*0.95, 0.78/rate, its half, and their difference. -/
lemma calcOkStructure (p r : F64) (hr : r.isZeroF = false) :
    ∃ s50 t25,
      fdiv STARS_50_USD r = .ok s50 ∧
      fdiv s50 FLOAT_2 = .ok t25 ∧
      «calc» p r = .ok ⟨p, fmul p FLOAT_0_95, r, s50, t25, fsub (fmul p FLOAT_0_95) t25⟩ := by
  obtain ⟨s50, h1⟩ : ∃ v, fdiv STARS_50_USD r = .ok v := by
    cases r with
    | nan => exact ⟨.nan, rfl⟩
    | inf s => exact ⟨.fin 0 0, rfl⟩
    | fin m e =>
      have hm : ¬m = 0 := by simpa [F64.isZeroF] using hr
      exact fdiv_fin_ok _ m e hm
  obtain ⟨t25, h2⟩ : ∃ v, fdiv s50 (.fin 1 1) = .ok v := fdiv_fin_ok s50 1 1 (by norm_num)
  have h2f : fdiv s50 FLOAT_2 = .ok t25 := by
    rw [show FLOAT_2 = F64.fin 1 1 from rfl]
    exact h2
  exact ⟨s50, t25, h1, h2f, by simp only [«calc», h1, h2f]⟩

/-- C1: for every finite input price p and strictly positive rate r, calc
returns a dict whose result field is exactly p*0.95 - (0.78/r)/2 computed
as that binary64 expression: the discounted price fmul p 0.95 minus the
halved fee-over-rate, with no further rounding applied. -/
theorem calc_result_is_discount_minus_half_fee (p r : F64)
    (_hp : p.isFinite = true) (hr : r.isPos = true) :
    ∃ s50 t25,
      fdiv STARS_50_USD r = .ok s50 ∧
      fdiv s50 FLOAT_2 = .ok t25 ∧
      «calc» p r = .ok ⟨p, fmul p FLOAT_0_95, r, s50, t25, fsub (fmul p FLOAT_0_95) t25⟩ := by
  have hr0 : r.isZeroF = false := by
    cases r with
    | nan => simp [F64.isPos] at hr
    | inf s => rfl
    | fin m e =>
      have hm : 0 < m := by simpa [F64.isPos] using hr
      simp [F64.isZeroF]
      omega
  exact calcOkStructure p r hr0

/-- Witness for C1 at price 1.0 and rate 5.0. -/
theorem calc_result_is_discount_minus_half_fee_witness :
    (F64.fin 1 0).isFinite = true ∧ (F64.fin 5 0).isPos = true ∧
      (∃ s50 t25,
        fdiv STARS_50_USD (.fin 5 0) = .ok s50 ∧
        fdiv s50 FLOAT_2 = .ok t25 ∧
        «calc» (.fin 1 0) (.fin 5 0) =
          .ok ⟨.fin 1 0, fmul (.fin 1 0) FLOAT_0_95, .fin 5 0, s50, t25,
               fsub (fmul (.fin 1 0) FLOAT_0_95) t25⟩) :=
  ⟨by decide, by decide,
   calc_result_is_discount_minus_half_fee (.fin 1 0) (.fin 5 0) (by decide) (by decide)⟩

/-- C2 counterexample: calc performs no input validation.  With the
non-finite price +inf it still returns a CalculationResult, and with the
non-positive rate -1.0 it also returns a CalculationResult; neither input
makes it fail. -/
theorem calc_cex_no_input_validation :
    (F64.inf false).isFinite = false ∧
    exceptIsOk («calc» (.inf false) (.fin 5 0)) = true ∧
    (F64.fin (-1) 0).isPos = false ∧
    exceptIsOk («calc» (.fin 3 2) (.fin (-1) 0)) = true := by decide

/-- C2 amended: calc validates nothing; it fails only when the rate is a
zero float, in which case the fee conversion raises ZeroDivisionError (an
arithmetic error, not an input-validation error).  For every other rate -
negative, infinite or NaN - and every price, finite or not, it returns a
CalculationResult. -/
theorem calc_fails_iff_zero_rate (p r : F64) :
    «calc» p r = .error PyErr.zeroDivisionError ↔ r.isZeroF = true := by
  constructor
  · intro h
    cases hzr : r.isZeroF with
    | true => rfl
    | false =>
      obtain ⟨s50, t25, _, _, h3⟩ := calcOkStructure p r hzr
      rw [h3] at h
      exact Except.noConfusion h
  · intro h
    cases r with
    | nan => simp [F64.isZeroF] at h
    | inf s => simp [F64.isZeroF] at h
    | fin m e =>
      have hm : m = 0 := by simpa [F64.isZeroF] using h
      subst hm
      have h1 : fdiv STARS_50_USD (.fin 0 e) = .error .zeroDivisionError := rfl
      simp only [«calc», h1]

/-- C9: on input price 12.8 (the binary64 value of the literal) and rate
5.0, calc returns discounted price exactly the double 12.16, fee-in-TON
exactly the double 0.156, its half exactly the double 0.078, and final
result exactly the double 12.082 (all equalities of binary64 values). -/
theorem calc_example_12_8_at_rate_5 :
    «calc» (roundFrac 64 5 0) (.fin 5 0) =
      .ok ⟨roundFrac 64 5 0, roundFrac 1216 100 0, .fin 5 0, roundFrac 156 1000 0,
           roundFrac 78 1000 0, roundFrac 12082 1000 0⟩ := by decide

/-- C10: parse_ton_price is total on absent or empty message text: both
None and the empty string are rejected with None rather than an
exception, because the body evaluates (text or "") before matching. -/
theorem parse_ton_price_none_empty :
    parse_ton_price none = none ∧ parse_ton_price (some "") = none := by decide

/-- C6: a save_cache followed by load_cache returns a record with exactly
the rate and timestamp that were written (the JSON encoding round-trips). -/
theorem cache_roundtrip (r t : ℚ) : load_cache (save_cache ⟨r, t⟩) = some ⟨r, t⟩ := rfl

/-- C5: load_cache is total and never escalates an error: it returns
exactly the parsed record when the body parses, and None when the file is
missing, unreadable, or its content fails to parse as the expected shape. -/
theorem load_cache_never_raises :
    (∀ s, load_cache s = (loadCacheBody s).toOption) ∧
    load_cache .absent = none ∧
    load_cache .unreadable = none ∧
    (∀ j p, loadCacheBody (.content j) = .ok p → load_cache (.content j) = some p) ∧
    (∀ j e, loadCacheBody (.content j) = .error e → load_cache (.content j) = none) := by
  refine ⟨?_, rfl, rfl, ?_, ?_⟩
  · intro s
    cases h : loadCacheBody s with
    | ok p => simp [load_cache, h, Except.toOption]
    | error e => simp [load_cache, h, Except.toOption]
  · intro j p h
    simp [load_cache, h]
  · intro j e h
    simp [load_cache, h]

/-- Witness for C5: a well-formed record loads as parsed; a record with
missing keys raises KeyError in the body and load_cache returns None. -/
theorem load_cache_never_raises_witness :
    loadCacheBody (.content (.obj [("ton_usd", Json.num 5), ("ts", Json.num 7)])) = .ok ⟨5, 7⟩ ∧
    load_cache (.content (.obj [("ton_usd", Json.num 5), ("ts", Json.num 7)])) = some ⟨5, 7⟩ ∧
    loadCacheBody (.content (.obj [])) = .error .keyError ∧
    load_cache (.content (.obj [])) = none :=
  ⟨rfl, load_cache_never_raises.2.2.2.1 _ _ rfl, rfl,
   load_cache_never_raises.2.2.2.2 _ .keyError rfl⟩

/-- On every path of fetchFresh, either the cache file is left unchanged,
or the call succeeded and wrote exactly the fetched rate with the current
time. -/
lemma fetchFresh_cases (s : FileState) (now : ℚ) (net : NetResult) :
    (fetchFresh s now net).2 = s ∨
    ∃ q, fetchFresh s now net = (.ok q, save_cache ⟨q, now⟩) := by
  cases net with
  | netError => left; rfl
  | response status body =>
    by_cases h4 : 400 ≤ status
    · left; simp [fetchFresh, h4]
    · cases body with
      | none => left; simp [fetchFresh, h4]
      | some data =>
        cases h1 : jsonGet data "the-open-network" with
        | error e => left; simp [fetchFresh, h4, h1]
        | ok inner =>
          cases h2 : jsonGet inner "usd" with
          | error e => left; simp [fetchFresh, h4, h1, h2]
          | ok u =>
            cases h3 : pyFloat u with
            | error e => left; simp [fetchFresh, h4, h1, h2, h3]
            | ok q =>
              by_cases hq : q ≤ 0
              · left; simp [fetchFresh, h4, h1, h2, h3, hq]
              · right; exact ⟨q, by simp [fetchFresh, h4, h1, h2, h3, hq]⟩

/-- C3: fetch_ton_usd serves the call from the cache - returning the
cached rate independently of the network and leaving the cache file
untouched - exactly when a record loads and now - record.ts < 60.  The
two closed conjuncts exercise the boundary: a record 59.5 seconds old
(timestamp now - TTL + 1/2) is fresh, and a record 60.5 seconds old
(timestamp now - TTL - 1/2) is stale, so the network outcome decides the
result. -/
theorem fetch_cache_hit_iff :
    (∀ s now,
      (∃ c, load_cache s = some c ∧
        ∀ net, fetch_ton_usd s now net = (.ok c.ton_usd, s)) ↔
      (∃ c, load_cache s = some c ∧ now - c.ts < CACHE_TTL_SEC)) ∧
    (∀ net, fetch_ton_usd (save_cache ⟨5, 100⟩) (319 / 2) net =
      (.ok 5, save_cache ⟨5, 100⟩)) ∧
    fetch_ton_usd (save_cache ⟨5, 100⟩) (321 / 2) .netError =
      (.error .netError, save_cache ⟨5, 100⟩) := by
  refine ⟨?_, ?_, ?_⟩
  · intro s now
    constructor
    · rintro ⟨c, hc, hall⟩
      refine ⟨c, hc, ?_⟩
      by_contra hfresh
      have h := hall .netError
      simp [fetch_ton_usd, hc, hfresh, fetchFresh] at h
    · rintro ⟨c, hc, hfresh⟩
      exact ⟨c, hc, fun net => by simp [fetch_ton_usd, hc, hfresh]⟩
  · intro net
    with_unfolding_all rfl
  · with_unfolding_all rfl

/-- C4: a fetch attempt that goes to the network and fails - connection
error, non-success HTTP status, undecodable body, missing field, or a
non-positive parsed rate - returns an error and never writes the cache:
the first conjunct says every error outcome leaves the cache file exactly
as it was, and the remaining conjuncts show each listed failure shape
produces an error whenever no fresh cached record exists. -/
theorem fetch_failure_leaves_cache :
    (∀ s now net e, (fetch_ton_usd s now net).1 = .error e →
      (fetch_ton_usd s now net).2 = s) ∧
    (∀ s now, (∀ c, load_cache s = some c → ¬(now - c.ts < CACHE_TTL_SEC)) →
      fetch_ton_usd s now .netError = (.error .netError, s)) ∧
    (∀ s now st b, (∀ c, load_cache s = some c → ¬(now - c.ts < CACHE_TTL_SEC)) → 400 ≤ st →
      fetch_ton_usd s now (.response st b) = (.error (.httpError st), s)) ∧
    (∀ s now, (∀ c, load_cache s = some c → ¬(now - c.ts < CACHE_TTL_SEC)) →
      fetch_ton_usd s now (.response 200 (some (.obj []))) = (.error .keyError, s)) ∧
    (∀ s now q, (∀ c, load_cache s = some c → ¬(now - c.ts < CACHE_TTL_SEC)) → q ≤ 0 →
      fetch_ton_usd s now
        (.response 200 (some (.obj [("the-open-network", .obj [("usd", .num q)])]))) =
        (.error .runtimeError, s)) := by
  have hstale : ∀ s now net, (∀ c, load_cache s = some c → ¬(now - c.ts < CACHE_TTL_SEC)) →
      fetch_ton_usd s now net = fetchFresh s now net := by
    intro s now net hs
    cases hc : load_cache s with
    | none => simp [fetch_ton_usd, hc]
    | some c => simp [fetch_ton_usd, hc, hs c hc]
  refine ⟨?_, ?_, ?_, ?_, ?_⟩
  · intro s now net e h
    cases hc : load_cache s with
    | some c =>
      by_cases hf : now - c.ts < CACHE_TTL_SEC
      · simp [fetch_ton_usd, hc, hf] at h
      · have hr : fetch_ton_usd s now net = fetchFresh s now net := by
          simp [fetch_ton_usd, hc, hf]
        rw [hr] at h ⊢
        rcases fetchFresh_cases s now net with h2 | ⟨q, h2⟩
        · exact h2
        · rw [h2] at h
          exact Except.noConfusion h
    | none =>
      have hr : fetch_ton_usd s now net = fetchFresh s now net := by
        simp [fetch_ton_usd, hc]
      rw [hr] at h ⊢
      rcases fetchFresh_cases s now net with h2 | ⟨q, h2⟩
      · exact h2
      · rw [h2] at h
        exact Except.noConfusion h
  · intro s now hs
    rw [hstale s now .netError hs]
    rfl
  · intro s now st b hs h400
    rw [hstale s now (.response st b) hs]
    simp [fetchFresh, h400]
  · intro s now hs
    rw [hstale s now _ hs]
    rfl
  · intro s now q hs hq
    rw [hstale s now _ hs]
    have h1 : jsonGet (.obj [("the-open-network", .obj [("usd", .num q)])]) "the-open-network" =
        .ok (.obj [("usd", .num q)]) := rfl
    have h2 : jsonGet (.obj [("usd", Json.num q)]) "usd" = .ok (.num q) := rfl
    simp [fetchFresh, h1, h2, pyFloat, hq]

/-- Witness for C4: with no cache file, a 500 response fails with the
HTTP error and leaves the cache absent; a -1 rate fails the positivity
check and leaves the cache absent. -/
theorem fetch_failure_leaves_cache_witness :
    fetch_ton_usd .absent 0 (.response 500 none) = (.error (.httpError 500), .absent) ∧
    fetch_ton_usd .absent 0
      (.response 200 (some (.obj [("the-open-network", .obj [("usd", .num (-1))])]))) =
      (.error .runtimeError, .absent) :=
  ⟨fetch_failure_leaves_cache.2.2.1 .absent 0 500 none
      (fun c hc => Option.noConfusion hc) (by norm_num),
   fetch_failure_leaves_cache.2.2.2.2 .absent 0 (-1)
      (fun c hc => Option.noConfusion hc) (by norm_num)⟩

/-- Finite check: no code point of the class \s is a decimal digit. -/
lemma spaceN_not_digitN : pySpaceCodes.all (fun n => !pyDigitN n) = true := by decide

/-- A whitespace character (the class \s) is not a digit. -/
lemma space_not_digit (c : Char) (h : pySpace c = true) : pyDigit c = false := by
  unfold pySpace pySpaceN at h
  obtain ⟨z, hz, he⟩ := List.any_eq_true.mp h
  have hcz : c.toNat = z := by simpa using he
  have hall := List.all_eq_true.mp spaceN_not_digitN z hz
  unfold pyDigit
  rw [hcz]
  simpa using hall

/-- A digit character is not whitespace. -/
lemma digit_not_space (c : Char) (h : pyDigit c = true) : pySpace c = false := by
  cases hsp : pySpace c with
  | false => rfl
  | true =>
    have h2 := space_not_digit c hsp
    rw [h] at h2
    exact Bool.noConfusion h2

/-- A digit character is not the minus sign. -/
lemma digit_ne_dash (c : Char) (h : pyDigit c = true) : ¬c = '-' := by
  intro he
  subst he
  exact absurd h (by decide)

/-- A whitespace character is not a decimal separator. -/
lemma space_not_sep (c : Char) (h : pySpace c = true) : ¬(c = '.' ∨ c = ',') := by
  intro hor
  rcases hor with he | he <;> subst he <;> exact absurd h (by decide)

/-- A decimal separator is not a digit. -/
lemma sep_not_digit (c : Char) (h : c = '.' ∨ c = ',') : pyDigit c = false := by
  rcases h with he | he <;> subst he <;> decide

/-- dropWhile skips a prefix all of whose elements satisfy p. -/
lemma dropWhile_append_all {p : Char → Bool} {w l : List Char}
    (h : ∀ c ∈ w, p c = true) : (w ++ l).dropWhile p = l.dropWhile p := by
  induction w with
  | nil => rfl
  | cons c t ih =>
    have hc : p c = true := h c (List.mem_cons_self c t)
    simp only [List.cons_append, List.dropWhile_cons, hc, if_true]
    exact ih fun x hx => h x (List.mem_cons_of_mem c hx)

/-- takeWhile keeps a prefix all of whose elements satisfy p. -/
lemma takeWhile_append_all {p : Char → Bool} {w l : List Char}
    (h : ∀ c ∈ w, p c = true) : (w ++ l).takeWhile p = w ++ l.takeWhile p := by
  induction w with
  | nil => rfl
  | cons c t ih =>
    have hc : p c = true := h c (List.mem_cons_self c t)
    simp only [List.cons_append, List.takeWhile_cons, hc, if_true]
    rw [ih fun x hx => h x (List.mem_cons_of_mem c hx)]

/-- An all-whitespace list has no leading digits. -/
lemma takeWhile_digit_spaces {w : List Char} (hw : ∀ c ∈ w, pySpace c = true) :
    w.takeWhile pyDigit = [] := by
  cases w with
  | nil => rfl
  | cons c t =>
    simp [List.takeWhile_cons, space_not_digit c (hw c (List.mem_cons_self c t))]

/-- dropWhile for digits leaves an all-whitespace list unchanged. -/
lemma dropWhile_digit_spaces {w : List Char} (hw : ∀ c ∈ w, pySpace c = true) :
    w.dropWhile pyDigit = w := by
  cases w with
  | nil => rfl
  | cons c t =>
    simp [List.dropWhile_cons, space_not_digit c (hw c (List.mem_cons_self c t))]

/-- The optional fractional group of the spec pattern ([.,]\d+)?, stated
as the claim writes it. -/
def SpecFrac (f : List Char) : Prop :=
  f = [] ∨ ∃ sep d2, (sep = '.' ∨ sep = ',') ∧ f = sep :: d2 ∧ d2 ≠ [] ∧ ∀ c ∈ d2, pyDigit c = true

/-- The language of the spec pattern of C7, stated as the claim writes it:
a string matches the anchored regex \s*-?\d+([.,]\d+)?\s*$ exactly when it
decomposes into leading whitespace, an optional minus sign, a nonempty run
of digits, an optional separator-plus-digits group, and trailing
whitespace. -/
def SpecMatch (cs : List Char) : Prop :=
  ∃ w1 sg d f w2 : List Char,
    cs = w1 ++ sg ++ d ++ f ++ w2 ∧
    (∀ c ∈ w1, pySpace c = true) ∧
    (sg = [] ∨ sg = ['-']) ∧
    d ≠ [] ∧ (∀ c ∈ d, pyDigit c = true) ∧
    SpecFrac f ∧
    (∀ c ∈ w2, pySpace c = true)

/-- If matchFrac accepts, its input splits into the fractional group and
trailing whitespace. -/
lemma matchFrac_some_spec {neg : Bool} {d1 cs : List Char}
    (h : (matchFrac neg d1 cs).isSome = true) :
    ∃ f w2, cs = f ++ w2 ∧ SpecFrac f ∧ (∀ c ∈ w2, pySpace c = true) := by
  cases cs with
  | nil => exact ⟨[], [], rfl, Or.inl rfl, by simp⟩
  | cons c t =>
    simp only [matchFrac] at h
    by_cases hsep : c = '.' ∨ c = ','
    · rw [if_pos hsep] at h
      by_cases hd2 : (t.takeWhile pyDigit).isEmpty
      · simp [hd2] at h
      · by_cases hall : (t.dropWhile pyDigit).all pySpace
        · refine ⟨c :: t.takeWhile pyDigit, t.dropWhile pyDigit, ?_, ?_, ?_⟩
          · rw [List.cons_append, List.takeWhile_append_dropWhile]
          · exact Or.inr ⟨c, t.takeWhile pyDigit, hsep, rfl,
              by simpa [List.isEmpty_iff] using hd2,
              fun x hx => List.mem_takeWhile_imp hx⟩
          · exact fun x hx => List.all_eq_true.mp hall x hx
        · simp [hd2, hall] at h
    · rw [if_neg hsep] at h
      by_cases hall : (c :: t).all pySpace
      · exact ⟨[], c :: t, rfl, Or.inl rfl, fun x hx => List.all_eq_true.mp hall x hx⟩
      · simp [hall] at h

/-- If matchBody accepts, its input splits into digits, the fractional
group and trailing whitespace. -/
lemma matchBody_some_spec {neg : Bool} {r2 : List Char}
    (h : (matchBody neg r2).isSome = true) :
    ∃ d f w2, r2 = d ++ f ++ w2 ∧ d ≠ [] ∧ (∀ c ∈ d, pyDigit c = true) ∧
      SpecFrac f ∧ (∀ c ∈ w2, pySpace c = true) := by
  simp only [matchBody] at h
  by_cases hd : (r2.takeWhile pyDigit).isEmpty
  · simp [hd] at h
  · rw [if_neg hd] at h
    obtain ⟨f, w2, hsplit, hf, hw2⟩ := matchFrac_some_spec h
    refine ⟨r2.takeWhile pyDigit, f, w2, ?_, ?_, ?_, hf, hw2⟩
    · rw [List.append_assoc, ← hsplit, List.takeWhile_append_dropWhile]
    · simpa [List.isEmpty_iff] using hd
    · exact fun x hx => List.mem_takeWhile_imp hx

/-- Soundness: an input accepted by the matcher is in the language of the
spec pattern. -/
lemma matchNum_some_spec {cs : List Char} (h : (matchNum cs).isSome = true) :
    SpecMatch cs := by
  simp only [matchNum] at h
  have hcs : cs = cs.takeWhile pySpace ++ cs.dropWhile pySpace :=
    (List.takeWhile_append_dropWhile pySpace cs).symm
  have hw1 : ∀ c ∈ cs.takeWhile pySpace, pySpace c = true :=
    fun c hc => List.mem_takeWhile_imp hc
  cases hr : cs.dropWhile pySpace with
  | nil =>
    rw [hr] at h
    simp [splitSign, matchBody] at h
  | cons c t =>
    rw [hr] at h
    have h0 := List.takeWhile_append_dropWhile pySpace cs
    by_cases hc : c = '-'
    · subst hc
      simp [splitSign] at h
      obtain ⟨d, f, w2, hsplit, hdne, hdig, hf, hw2⟩ := matchBody_some_spec h
      refine ⟨cs.takeWhile pySpace, ['-'], d, f, w2, ?_, hw1, Or.inr rfl, hdne, hdig, hf, hw2⟩
      rw [hr, hsplit] at h0
      refine h0.symm.trans ?_
      simp
    · simp [splitSign, hc] at h
      obtain ⟨d, f, w2, hsplit, hdne, hdig, hf, hw2⟩ := matchBody_some_spec h
      refine ⟨cs.takeWhile pySpace, [], d, f, w2, ?_, hw1, Or.inl rfl, hdne, hdig, hf, hw2⟩
      rw [hr, hsplit] at h0
      refine h0.symm.trans ?_
      simp

/-- Completeness for the fractional part: matchFrac accepts the
fractional group followed by trailing whitespace. -/
lemma spec_matchFrac {neg : Bool} {d f w2 : List Char}
    (hf : SpecFrac f) (hw2 : ∀ c ∈ w2, pySpace c = true) :
    (matchFrac neg d (f ++ w2)).isSome = true := by
  rcases hf with h | ⟨sep, d2, hsep, hfe, hd2ne, hd2⟩
  · subst h
    simp only [List.nil_append]
    cases w2 with
    | nil => rfl
    | cons c t =>
      simp only [matchFrac]
      rw [if_neg (space_not_sep c (hw2 c (List.mem_cons_self c t)))]
      simp [List.all_eq_true.mpr hw2]
  · subst hfe
    rw [List.cons_append]
    simp only [matchFrac]
    rw [if_pos hsep]
    have ht : (d2 ++ w2).takeWhile pyDigit = d2 := by
      rw [takeWhile_append_all hd2, takeWhile_digit_spaces hw2, List.append_nil]
    have hdr : (d2 ++ w2).dropWhile pyDigit = w2 := by
      rw [dropWhile_append_all hd2, dropWhile_digit_spaces hw2]
    have hd2e : d2.isEmpty = false := by
      cases d2 with
      | nil => exact absurd rfl hd2ne
      | cons x xs => rfl
    simp [ht, hdr, hd2e, List.all_eq_true.mpr hw2]

/-- Completeness for the body: matchBody accepts digits, fractional group
and trailing whitespace. -/
lemma spec_matchBody {neg : Bool} {d f w2 : List Char}
    (hdne : d ≠ []) (hdig : ∀ c ∈ d, pyDigit c = true)
    (hf : SpecFrac f) (hw2 : ∀ c ∈ w2, pySpace c = true) :
    (matchBody neg (d ++ (f ++ w2))).isSome = true := by
  have htw : (f ++ w2).takeWhile pyDigit = [] := by
    rcases hf with h | ⟨sep, d2, hsep, hfe, hd2ne, hd2⟩
    · subst h
      simp only [List.nil_append]
      exact takeWhile_digit_spaces hw2
    · subst hfe
      rw [List.cons_append]
      simp [List.takeWhile_cons, sep_not_digit sep hsep]
  have hdw : (f ++ w2).dropWhile pyDigit = f ++ w2 := by
    rcases hf with h | ⟨sep, d2, hsep, hfe, hd2ne, hd2⟩
    · subst h
      simp only [List.nil_append]
      exact dropWhile_digit_spaces hw2
    · subst hfe
      rw [List.cons_append]
      simp [List.dropWhile_cons, sep_not_digit sep hsep]
  have h1 : (d ++ (f ++ w2)).takeWhile pyDigit = d := by
    rw [takeWhile_append_all hdig, htw, List.append_nil]
  have h2 : (d ++ (f ++ w2)).dropWhile pyDigit = f ++ w2 := by
    rw [dropWhile_append_all hdig, hdw]
  have hde : d.isEmpty = false := by
    cases d with
    | nil => exact absurd rfl hdne
    | cons x xs => rfl
  simp only [matchBody, h1, h2, hde, Bool.false_eq_true, if_false]
  exact spec_matchFrac hf hw2

/-- Completeness: an input in the language of the spec pattern is
accepted by the matcher. -/
lemma spec_matchNum {cs : List Char} (h : SpecMatch cs) : (matchNum cs).isSome = true := by
  obtain ⟨w1, sg, d, f, w2, hcs, hw1, hsg, hdne, hdig, hf, hw2⟩ := h
  obtain ⟨c, d2, hd⟩ := List.exists_cons_of_ne_nil hdne
  have hcdig : pyDigit c = true := hdig c (by rw [hd]; exact List.mem_cons_self c d2)
  subst hcs
  simp only [matchNum, List.append_assoc]
  rw [dropWhile_append_all hw1]
  rcases hsg with h | h
  · subst h
    simp only [List.nil_append]
    have hdrop : (d ++ (f ++ w2)).dropWhile pySpace = d ++ (f ++ w2) := by
      rw [hd, List.cons_append, List.dropWhile_cons, digit_not_space c hcdig]
      simp
    rw [hdrop]
    have hsplit : splitSign (d ++ (f ++ w2)) = (false, d ++ (f ++ w2)) := by
      rw [hd, List.cons_append]
      simp [splitSign, digit_ne_dash c hcdig]
    rw [hsplit]
    exact spec_matchBody hdne hdig hf hw2
  · subst h
    have hdrop : ((['-'] : List Char) ++ (d ++ (f ++ w2))).dropWhile pySpace =
        '-' :: (d ++ (f ++ w2)) := by
      rw [List.singleton_append, List.dropWhile_cons]
      have hsp : pySpace '-' = false := by decide
      rw [hsp]
      simp
    rw [hdrop]
    have hsplit : splitSign ('-' :: (d ++ (f ++ w2))) = (true, d ++ (f ++ w2)) := by
      simp [splitSign]
    rw [hsplit]
    exact spec_matchBody hdne hdig hf hw2

/-- parse_ton_price accepts exactly when the matcher accepts. -/
lemma parse_isSome_eq (t : String) :
    (parse_ton_price (some t)).isSome = (matchNum t.data).isSome := by
  cases h : matchNum t.data with
  | none => simp [parse_ton_price, h]
  | some parts => simp [parse_ton_price, h]

/-- C7: parse_ton_price accepts exactly the strings in the language of
the pattern \s*-?\d+([.,]\d+)?\s*$ (comma or dot as decimal separator);
an accepted string is mapped to float() of the decimal numeral its match
captured; and on the spec examples: "12.8" and "12,8" parse to the double
12.8, "  7  " to 7.0, "-3.5" to -3.5, and "abc" is rejected. -/
theorem parse_ton_price_matches_spec_pattern :
    (∀ t : String, (parse_ton_price (some t)).isSome = true ↔ SpecMatch t.data) ∧
    (∀ (t : String) (parts : NumParts), matchNum t.data = some parts →
      parse_ton_price (some t) = some (roundFrac (partsNum parts) (partsDen parts) 0)) ∧
    parse_ton_price (some "12.8") = some (roundFrac 64 5 0) ∧
    parse_ton_price (some "12,8") = some (roundFrac 64 5 0) ∧
    parse_ton_price (some "  7  ") = some (.fin 7 0) ∧
    parse_ton_price (some "-3.5") = some (.fin (-7) (-1)) ∧
    parse_ton_price (some "abc") = none := by
  refine ⟨?_, ?_, by decide, by decide, by decide, by decide, by decide⟩
  · intro t
    rw [parse_isSome_eq]
    exact ⟨fun h => matchNum_some_spec h, fun h => spec_matchNum h⟩
  · intro t parts h
    simp [parse_ton_price, h]

/-- C8 counterexample: the 310-digit numeral 1 followed by 309 zeros is
accepted by the parser, but float() of it overflows to +infinity, which
is not a finite value. -/
theorem parse_cex_overflow_to_inf :
    parse_ton_price (some (String.mk ('1' :: List.replicate 309 '0'))) = some (.inf false) ∧
    (F64.inf false).isFinite = false := by decide

/-- roundPack never produces a NaN. -/
lemma roundPack_ne_nan (neg : Bool) (n0 : Nat) (p : Int) : roundPack neg n0 p ≠ .nan := by
  intro h
  unfold roundPack at h
  split at h
  · exact F64.noConfusion h
  · split at h
    · exact F64.noConfusion h
    · exact F64.noConfusion h

/-- roundFrac never produces a NaN: every branch yields a finite value or
an infinity. -/
lemma roundFrac_ne_nan (num : Int) (den : Nat) (e : Int) : roundFrac num den e ≠ .nan := by
  unfold roundFrac
  split
  · exact fun h => F64.noConfusion h
  · exact fun h => roundPack_ne_nan _ _ _ h

/-- C8 amended: a value accepted by parse_ton_price is never NaN, but it
need not be finite: float() rounds the captured numeral to binary64, and
out-of-range magnitudes overflow to an infinity. -/
theorem parse_ton_price_never_nan (t : Option String) (v : F64)
    (h : parse_ton_price t = some v) : v ≠ F64.nan := by
  unfold parse_ton_price at h
  cases hm : matchNum ((t.getD "").data) with
  | none =>
    rw [hm] at h
    exact Option.noConfusion h
  | some parts =>
    rw [hm] at h
    have hv := Option.some.inj h
    rw [← hv]
    exact roundFrac_ne_nan _ _ _

/-- Witness for the amended C8 at the accepted input "7". -/
theorem parse_ton_price_never_nan_witness :
    parse_ton_price (some "7") = some (.fin 7 0) ∧ F64.fin 7 0 ≠ F64.nan :=
  ⟨by decide, parse_ton_price_never_nan (some "7") (.fin 7 0) (by decide)⟩
